import Mathlib

/-!
# Verification of the boris-clip annotation-normalization and clip-planning pipeline

A shallow embedding of the core of `boris_clip` (files `models.py`, `parse.py`,
`validate.py`, `clip.py`).  Time values (Python `float` seconds) are modelled as
rationals `ℚ`; Python `None` becomes `Option`; `abort` (which terminates the
process) becomes the error branch of `Except`; warnings printed to stderr are
accumulated as explicit lists of structured tags.  Pandas cells that may be
missing (`NaN`) or unparseable (`pd.to_numeric(..., errors="coerce")`) are
modelled as `Option` values.
-/

deriving instance DecidableEq for Except

namespace BorisClip

/-- `models.VideoInfo`: metadata extracted from a video file. -/
structure VideoInfo where
  path : String
  filename : String
  duration : ℚ
  fps : ℚ
deriving DecidableEq, Repr

/-- `models.Bout`: a single annotated behavioural bout. -/
structure Bout where
  subject : String
  behaviour : String
  start : ℚ
  stop : ℚ
  is_point : Bool := false
deriving DecidableEq, Repr

/-- `Bout.duration` property: `stop - start`. -/
def Bout.duration (b : Bout) : ℚ := b.stop - b.start

/-- `models.Bout.with_padding`: return a new Bout with padding applied,
clamped to video bounds. -/
def Bout.with_padding (b : Bout) (pre post : ℚ) (video_duration : Option ℚ) : Bout :=
  let new_start := max 0 (b.start - pre)
  let new_stop := b.stop + post
  let new_stop := match video_duration with
    | some d => min d new_stop
    | none => new_stop
  { subject := b.subject
    behaviour := b.behaviour
    start := new_start
    stop := new_stop
    is_point := b.is_point }

/-- `models.ParsedAnnotations`: result of parsing a BORIS file. -/
structure ParsedAnnotations where
  bouts : List Bout
  obs_id : Option String := none
  media_filename : Option String := none
  media_path : Option String := none
  fps : Option ℚ := none
  duration : Option ℚ := none
  source_format : String := "unknown"
deriving DecidableEq, Repr

/-! ## String helpers

`Path(s).name`, `Path(s).stem`, `str.strip`, `str.lower`, and the filename
sanitiser `clip._sanitise_name`. -/

/-- `pathlib.Path(s).name`: the component after the last `/`. -/
def pathName (s : String) : String :=
  ((s.toList.reverse.takeWhile (· ≠ '/')).reverse).asString

/-- Index of the last occurrence of `'.'` in `cs`, if any (`str.rfind('.')`). -/
def lastDotIdx : List Char → Option ℕ
  | [] => none
  | c :: rest =>
    match lastDotIdx rest with
    | some i => some (i + 1)
    | none => if c = '.' then some 0 else none

/-- `pathlib.Path(s).stem`: the name minus its suffix; a dot is only a suffix
separator when it is strictly inside the name (`rfind('.')` with
`0 < i < len(name) - 1`). -/
def pathStem (s : String) : String :=
  let name := pathName s
  let cs := name.toList
  match lastDotIdx cs with
  | some i => if 0 < i ∧ i < cs.length - 1 then (cs.take i).asString else name
  | none => name

/-- Python `str.strip()`: remove leading and trailing whitespace. -/
def strip (s : String) : String :=
  (((s.toList.dropWhile Char.isWhitespace).reverse.dropWhile Char.isWhitespace).reverse).asString

/-- ASCII lower-casing of one character (Python `str.lower()` on ASCII input). -/
def asciiLower (c : Char) : Char :=
  if 65 ≤ c.toNat ∧ c.toNat ≤ 90 then Char.ofNat (c.toNat + 32) else c

/-- Python `str.lower()` (modelled for ASCII input). -/
def lowerStr (s : String) : String := (s.toList.map asciiLower).asString

/-- A character kept verbatim by `clip._sanitise_name` (`[\w\-]` for ASCII:
letters, digits, underscore, hyphen). -/
def isWordChar (c : Char) : Bool := c.isAlphanum || c = '_' || c = '-'

/-- Collapse runs of `_` to a single `_` (`re.sub(r"_+", "_", ...)`). -/
def collapseUnderscores : List Char → List Char
  | [] => []
  | c :: rest =>
    let r := collapseUnderscores rest
    if c = '_' then
      match r with
      | '_' :: _ => r
      | _ => c :: r
    else c :: r

/-- `clip._sanitise_name`: trim, replace non-word chars with `_`, collapse `_`
runs, strip leading/trailing `_`. -/
def sanitise_name (name : String) : String :=
  let s := strip name
  let replaced := s.toList.map (fun c => if isWordChar c then c else '_')
  let collapsed := collapseUnderscores replaced
  (((collapsed.dropWhile (· = '_')).reverse.dropWhile (· = '_')).reverse).asString

/-! ## Time formatting: Python `f"{x:.3f}"` at millisecond precision. -/

/-- Floor of a rational, computed on its numerator and denominator. -/
def floorQ (q : ℚ) : ℤ := q.num.fdiv q.den

/-- Round to the nearest integer, ties to even (the rounding Python uses when
formatting). -/
def roundHalfEven (q : ℚ) : ℤ :=
  let f := floorQ q
  let r := q - (f : ℚ)
  if r < mkRat 1 2 then f
  else if mkRat 1 2 < r then f + 1
  else if f % 2 = 0 then f else f + 1

/-- Left-pad a natural below 1000 to three digits. -/
def pad3 (n : ℕ) : String :=
  if n < 10 then "00" ++ toString n
  else if n < 100 then "0" ++ toString n
  else toString n

/-- Render `n` thousandths as a decimal with three fractional digits. -/
def formatMilli (n : ℕ) : String :=
  toString (n / 1000) ++ "." ++ pad3 (n % 1000)

/-- Python `f"{x:.3f}"`: the value rounded to the nearest thousandth, with
exactly three digits after the decimal point. -/
def format3 (q : ℚ) : String :=
  let m := roundHalfEven (q * 1000)
  if m < 0 then "-" ++ formatMilli m.natAbs else formatMilli m.toNat

/-! ## `clip.build_output_path` -/

/-- `clip._NO_FOCAL_SUBJECT_LABELS`. -/
def noFocalSubjectLabels : List String := ["", "no focal subject", "no-focal-subject"]

/-- `clip.build_output_path`: construct the output file path
`{video_stem}_{behaviour}_{subject}_{start}-{stop}.mp4`, joining only the
non-empty components; the interval uses the original (unpadded) times. -/
def build_output_path (bout : Bout) (video : VideoInfo) (output_dir : String)
    (original_start original_stop : ℚ) : String :=
  let video_stem := pathStem video.filename
  let behaviour := sanitise_name bout.behaviour
  let subject :=
    if noFocalSubjectLabels.contains (lowerStr (strip bout.subject)) then "no-focal-subject"
    else sanitise_name bout.subject
  let interval := format3 original_start ++ "-" ++ format3 original_stop
  let parts := [video_stem, behaviour, subject, interval]
  let filename := "_".intercalate (parts.filter (· ≠ "")) ++ ".mp4"
  output_dir ++ "/" ++ filename

/-! ## Clip planner (`clip._apply_max_clips`, the planning loop of
`clip.extract_all_clips`)

The side-effecting parts of `extract_all_clips` (mkdir, the ffmpeg shell-out,
the progress callback) are outside the model; the planning loop is embedded as
a pure function returning the ordered list of planned output paths together
with the final interval each one cuts, plus the warnings issued. -/

/-- Warning tags for the planner. -/
inductive ClipWarn
  | zeroDuration (subject behaviour : String) (start : ℚ)
deriving DecidableEq, Repr

/-- `clip._apply_max_clips`, generalised over the running per-group counts
(the Python `counts` dict, as a total function defaulting to 0). -/
def apply_max_clips_aux (max_clips : ℤ) (counts : String × String → ℕ) :
    List Bout → List Bout
  | [] => []
  | b :: rest =>
    let key := (b.behaviour, b.subject)
    let n := counts key
    if (n : ℤ) < max_clips then
      b :: apply_max_clips_aux max_clips (fun k => if k = key then n + 1 else counts k) rest
    else
      apply_max_clips_aux max_clips counts rest

/-- `clip._apply_max_clips`: at most `max_clips` bouts per
(behaviour, subject) group, first ones kept; `none` keeps all. -/
def apply_max_clips (bouts : List Bout) (max_clips : Option ℤ) : List Bout :=
  match max_clips with
  | none => bouts
  | some m => apply_max_clips_aux m (fun _ => 0) bouts

/-- The `max_duration` step of the `extract_all_clips` loop: truncate from the
end if the padded clip exceeds `max_duration`. -/
def truncate_to_max_duration (padded : Bout) (max_duration : Option ℚ) : Bout :=
  match max_duration with
  | none => padded
  | some m =>
    if padded.duration > m then
      { subject := padded.subject
        behaviour := padded.behaviour
        start := padded.start
        stop := padded.start + m
        is_point := padded.is_point }
    else padded

/-- One iteration of the `extract_all_clips` loop: pad, truncate, drop
non-positive durations (with a warning), otherwise name the output.
Returns the planned (final bout, output path) if the bout survives. -/
def plan_one_clip (video : VideoInfo) (output_dir : String)
    (padding_pre padding_post point_padding_pre point_padding_post : ℚ)
    (max_duration : Option ℚ) (bout : Bout) :
    Option (Bout × String) × List ClipWarn :=
  let pre := if bout.is_point then point_padding_pre else padding_pre
  let post := if bout.is_point then point_padding_post else padding_post
  let padded := bout.with_padding pre post (some video.duration)
  let padded := truncate_to_max_duration padded max_duration
  if padded.duration ≤ 0 then
    (none, [ClipWarn.zeroDuration bout.subject bout.behaviour bout.start])
  else
    (some (padded, build_output_path padded video output_dir bout.start bout.stop), [])

/-- The planning part of `clip.extract_all_clips`: apply the per-group cap,
then pad/clamp/truncate each surviving bout and name its output. -/
def extract_all_clips (bouts : List Bout) (video : VideoInfo) (output_dir : String)
    (padding_pre : ℚ := 0) (padding_post : ℚ := 0)
    (point_padding_pre : ℚ := 5) (point_padding_post : ℚ := 5)
    (max_duration : Option ℚ := none) (max_clips : Option ℤ := none) :
    List (Bout × String) × List ClipWarn :=
  let capped := apply_max_clips bouts max_clips
  capped.foldl
    (fun acc bout =>
      match plan_one_clip video output_dir padding_pre padding_post
          point_padding_pre point_padding_post max_duration bout with
      | (some plan, w) => (acc.1 ++ [plan], acc.2 ++ w)
      | (none, w) => (acc.1, acc.2 ++ w))
    ([], [])

/-! ## Cross-validator (`validate.py`)

`cli_utils.abort` terminates the process; it is modelled as the error branch
of `Except`.  Each check records a tag when it is invoked, so the control flow
(which checks actually ran) is observable in the result. -/

/-- The four checks, in source order. -/
inductive CheckTag
  | media
  | fps
  | duration
  | bounds
deriving DecidableEq, Repr

/-- Hard (fatal unless `force`) conditions of `validate.py`. -/
inductive VFatal
  | filenameMismatch (annotated probed : String)
  | boutsOutOfBounds (count : ℕ)
deriving DecidableEq, Repr

/-- Warnings emitted by `validate.py`. -/
inductive VWarn
  | noMediaFilename
  | fpsMismatch
  | durationMismatch
  | forced (f : VFatal)
deriving DecidableEq, Repr

/-- `validate._DURATION_TOLERANCE`. -/
def durationTolerance : ℚ := 1

/-- `validate._FPS_TOLERANCE`. -/
def fpsTolerance : ℚ := mkRat 1 10

/-- `validate._hard`: fatal unless `force`, in which case a warning. -/
def hardCondition (f : VFatal) (force : Bool) : Except VFatal (List VWarn) :=
  if force then Except.ok [VWarn.forced f] else Except.error f

/-- `validate._check_media_filename`. -/
def check_media_filename (annotations : ParsedAnnotations) (video : VideoInfo)
    (force : Bool) : Except VFatal (List VWarn) :=
  match annotations.media_filename with
  | none => Except.ok [VWarn.noMediaFilename]
  | some m =>
    if m ≠ video.filename then
      hardCondition (VFatal.filenameMismatch m video.filename) force
    else Except.ok []

/-- `validate._check_fps` (never fatal). -/
def check_fps (annotations : ParsedAnnotations) (video : VideoInfo) : List VWarn :=
  match annotations.fps with
  | none => []
  | some f =>
    if video.fps = 0 then []
    else if |f - video.fps| > fpsTolerance then [VWarn.fpsMismatch]
    else []

/-- `validate._check_duration` (never fatal). -/
def check_duration (annotations : ParsedAnnotations) (video : VideoInfo) : List VWarn :=
  match annotations.duration with
  | none => []
  | some d =>
    if |d - video.duration| > durationTolerance then [VWarn.durationMismatch]
    else []

/-- `validate._check_bout_bounds`. -/
def check_bout_bounds (annotations : ParsedAnnotations) (video : VideoInfo)
    (force : Bool) : Except VFatal (List VWarn) :=
  let violations := annotations.bouts.filter
    (fun b => b.stop > video.duration + durationTolerance)
  if violations.isEmpty then Except.ok []
  else hardCondition (VFatal.boutsOutOfBounds violations.length) force

/-- `validate.validate`: the four checks in source order.  The result records
which checks were invoked; an aborting check ends the run there (the process
exits), so later tags are absent from the trace on the error branch. -/
def validate (annotations : ParsedAnnotations) (video : VideoInfo) (force : Bool) :
    Except (List CheckTag × VFatal) (List CheckTag × List VWarn) :=
  match check_media_filename annotations video force with
  | Except.error f => Except.error ([CheckTag.media], f)
  | Except.ok w1 =>
    let w2 := check_fps annotations video
    let w3 := check_duration annotations video
    match check_bout_bounds annotations video force with
    | Except.error f =>
      Except.error ([CheckTag.media, CheckTag.fps, CheckTag.duration, CheckTag.bounds], f)
    | Except.ok w4 =>
      Except.ok ([CheckTag.media, CheckTag.fps, CheckTag.duration, CheckTag.bounds],
        w1 ++ w2 ++ w3 ++ w4)

/-! ## Parsers (`parse.py`)

Rows of a pandas DataFrame become lists of row records; a missing (`NaN`) or
unparseable cell (`pd.to_numeric(..., errors="coerce")`) is `none`.  The
insertion-ordered Python `dict` tracking open state events becomes an
association list with in-place update. -/

/-- Warning tags for the parsers. -/
inductive ParseWarn
  | startOverwrite (subject behaviour : String) (t prev : ℚ)
  | unmatchedStop (subject behaviour : String) (t : ℚ)
  | unknownStatus (status : String) (t : ℚ)
  | unclosedStart (subject behaviour : String) (start : ℚ)
  | multipleMediaFiles
  | missingStartStop (subject behaviour : String)
  | multipleObservations (count : ℕ)
deriving DecidableEq, Repr

/-- Association-list lookup (Python `key in dict` / `dict[key]`). -/
def alistFind {α β : Type} [DecidableEq α] (k : α) : List (α × β) → Option β
  | [] => none
  | (k', v) :: rest => if k' = k then some v else alistFind k rest

/-- Association-list insert with dict semantics: update in place if the key is
present, else append (insertion order preserved). -/
def alistInsert {α β : Type} [DecidableEq α] (k : α) (v : β) :
    List (α × β) → List (α × β)
  | [] => [(k, v)]
  | (k', v') :: rest =>
    if k' = k then (k, v) :: rest else (k', v') :: alistInsert k v rest

/-- Association-list removal (Python `dict.pop`). -/
def alistErase {α β : Type} [DecidableEq α] (k : α) : List (α × β) → List (α × β)
  | [] => []
  | (k', v') :: rest => if k' = k then rest else (k', v') :: alistErase k rest

/-- Pandas `Series.unique()`: distinct values in order of first appearance. -/
def uniqueFirst {α : Type} [DecidableEq α] : List α → List α
  | [] => []
  | x :: xs => x :: (uniqueFirst xs).filter (· ≠ x)

/-- ASCII upper-casing of one character (Python `str.upper()` on ASCII input). -/
def asciiUpper (c : Char) : Char :=
  if 97 ≤ c.toNat ∧ c.toNat ≤ 122 then Char.ofNat (c.toNat - 32) else c

/-- Python `str.upper()` (modelled for ASCII input). -/
def upperStr (s : String) : String := (s.toList.map asciiUpper).asString

/-- Stable insertion (after existing entries with key `≤`) for time sorting. -/
def insertSortedBy {α : Type} (f : α → ℚ) (x : α) : List α → List α
  | [] => [x]
  | y :: ys => if f y ≤ f x then y :: insertSortedBy f x ys else x :: y :: ys

/-- Stable sort by a rational key (`DataFrame.sort_values` / Python `sorted`). -/
def sortBy {α : Type} (f : α → ℚ) (xs : List α) : List α :=
  xs.foldl (fun acc x => insertSortedBy f x acc) []

/-- A raw row of a tabular events export. -/
structure TabRow where
  time : Option ℚ
  subject : String
  behaviour : String
  status : String
  media : Option String
  fps : Option ℚ
  total_length : Option ℚ
deriving DecidableEq, Repr

/-- A row that survived `dropna(subset=[Time])`. -/
structure TimedRow where
  time : ℚ
  subject : String
  behaviour : String
  status : String
deriving DecidableEq, Repr

/-- State of the START/STOP pairing loop of `_parse_tabular_csv`. -/
structure TabState where
  bouts : List Bout
  open_states : List ((String × String) × ℚ)
  warns : List ParseWarn
deriving DecidableEq, Repr

/-- One iteration of the `_parse_tabular_csv` row loop. -/
def tabular_step (st : TabState) (row : TimedRow) : TabState :=
  let t := row.time
  let subject := strip row.subject
  let behaviour := strip row.behaviour
  let status := upperStr (strip row.status)
  if status = "START" then
    let key := (subject, behaviour)
    match alistFind key st.open_states with
    | some prev =>
      { st with
        warns := st.warns ++ [ParseWarn.startOverwrite subject behaviour t prev]
        open_states := alistInsert key t st.open_states }
    | none => { st with open_states := alistInsert key t st.open_states }
  else if status = "STOP" then
    let key := (subject, behaviour)
    match alistFind key st.open_states with
    | none =>
      { st with warns := st.warns ++ [ParseWarn.unmatchedStop subject behaviour t] }
    | some start =>
      { st with
        bouts := st.bouts ++ [⟨subject, behaviour, start, t, false⟩]
        open_states := alistErase key st.open_states }
  else if status = "POINT" ∨ status = "PUNCTUAL" then
    { st with bouts := st.bouts ++ [⟨subject, behaviour, t, t, true⟩] }
  else
    { st with warns := st.warns ++ [ParseWarn.unknownStatus status t] }

/-- The end-of-rows pass of `_parse_tabular_csv`: every still-open key is
discarded with a warning. -/
def tabular_finalise (st : TabState) : TabState :=
  { st with
    warns := st.warns ++
      st.open_states.map (fun e => ParseWarn.unclosedStart e.1.1 e.1.2 e.2) }

/-- Media-filename extraction of `_parse_tabular_csv`: dropna + unique; one
value is used silently, several produce a warning and the first is used. -/
def extract_media_filename (cells : List (Option String)) :
    Option String × List ParseWarn :=
  match uniqueFirst (cells.filterMap id) with
  | [] => (none, [])
  | [v] => (some (pathName (strip v)), [])
  | v :: _ :: _ => (some (pathName (strip v)), [ParseWarn.multipleMediaFiles])

/-- FPS / total-length extraction of `_parse_tabular_csv`: the value is taken
only when exactly one distinct non-missing value exists. -/
def extract_unique_numeric (cells : List (Option ℚ)) : Option ℚ :=
  match uniqueFirst (cells.filterMap id) with
  | [v] => some v
  | _ => none

/-- `dropna(subset=[Time])`: keep the rows whose time parsed. -/
def timedRows (rows : List TabRow) : List TimedRow :=
  rows.filterMap (fun r => r.time.map (fun t => ⟨t, r.subject, r.behaviour, r.status⟩))

/-- `parse._parse_tabular_csv`: metadata extraction, time sort, then the
START/STOP pairing state machine. -/
def parse_tabular_csv (rows : List TabRow) : ParsedAnnotations × List ParseWarn :=
  let media := extract_media_filename (rows.map (·.media))
  let fps := extract_unique_numeric (rows.map (·.fps))
  let duration := extract_unique_numeric (rows.map (·.total_length))
  let st := (sortBy (·.time) (timedRows rows)).foldl tabular_step ⟨[], [], []⟩
  let st := tabular_finalise st
  ({ bouts := st.bouts
     media_filename := media.1
     fps := fps
     duration := duration
     source_format := "tabular_csv" },
   media.2 ++ st.warns)

/-- A raw row of an aggregated events export. -/
structure AggRow where
  subject : String
  behaviour : String
  start : Option ℚ
  stop : Option ℚ
  media : Option String
  fps : Option ℚ
  total_length : Option ℚ
deriving DecidableEq, Repr

/-- Media-filename extraction of `_parse_aggregated_csv`: first value, no
warning for several. -/
def agg_extract_media (cells : List (Option String)) : Option String :=
  match uniqueFirst (cells.filterMap id) with
  | [] => none
  | v :: _ => some (pathName (strip v))

/-- One iteration of the `_parse_aggregated_csv` row loop. -/
def aggregated_step (acc : List Bout × List ParseWarn) (r : AggRow) :
    List Bout × List ParseWarn :=
  let subject := strip r.subject
  let behaviour := strip r.behaviour
  match r.start, r.stop with
  | some startv, some stopv =>
    (acc.1 ++ [⟨subject, behaviour, startv, stopv, decide (startv = stopv)⟩], acc.2)
  | _, _ => (acc.1, acc.2 ++ [ParseWarn.missingStartStop subject behaviour])

/-- `parse._parse_aggregated_csv`. -/
def parse_aggregated_csv (rows : List AggRow) : ParsedAnnotations × List ParseWarn :=
  let media := agg_extract_media (rows.map (·.media))
  let fps := extract_unique_numeric (rows.map (·.fps))
  let duration := extract_unique_numeric (rows.map (·.total_length))
  let folded := rows.foldl aggregated_step ([], [])
  ({ bouts := folded.1
     media_filename := media
     fps := fps
     duration := duration
     source_format := "aggregated_csv" },
   folded.2)

/-! ## `.boris` project parser (`parse._parse_boris_project`) -/

/-- The value under one player key of the project `file` mapping. -/
inductive PlayerFiles
  | files (fs : List String)
  | single (s : String)
  | other
deriving DecidableEq, Repr

/-- The resolved `obs.get("file", obs.get("media_file_name", {}))` value. -/
inductive MediaFileField
  | byPlayer (entries : List (String × PlayerFiles))
  | flat (s : String)
deriving DecidableEq, Repr

/-- One `file_info` record of the nested `media_info` mapping. `none` marks a
missing `fps`/`duration` entry or one whose value does not parse as a float. -/
structure FileInfo where
  fps : Option ℚ
  duration : Option ℚ
deriving DecidableEq, Repr

/-- One observation of a `.boris` project document.  Raw events are
(timestamp, subject, behaviour) triples (trailing modifier/comment fields do
not influence parsing; events shorter than three fields are skipped by the
code and are not modelled). -/
structure Observation where
  media_file : MediaFileField
  media_info : List (String × List (String × FileInfo))
  events : List (ℚ × String × String)
deriving DecidableEq, Repr

/-- The per-player filename scan: the first non-empty list entry or string
value wins (the loop breaks there). -/
def media_from_players : List (String × PlayerFiles) → Option String
  | [] => none
  | (_, PlayerFiles.files (f :: _)) :: _ => some (pathName f)
  | (_, PlayerFiles.files []) :: rest => media_from_players rest
  | (_, PlayerFiles.single s) :: _ => some (pathName s)
  | (_, PlayerFiles.other) :: rest => media_from_players rest

/-- Media filename extraction for one observation. -/
def obs_media_filename : MediaFileField → Option String
  | MediaFileField.byPlayer entries => media_from_players entries
  | MediaFileField.flat s => if s ≠ "" then some (pathName s) else none

/-- Keep `acc` when it is already set, else take `b` (`if fps is None: ...`). -/
def firstSome {α : Type} (acc b : Option α) : Option α :=
  match acc with
  | some x => some x
  | none => b

/-- The nested `media_info` scan for `fps`: first parseable value wins. -/
def obs_fps (acc : Option ℚ) (mi : List (String × List (String × FileInfo))) :
    Option ℚ :=
  mi.foldl (fun a p => p.2.foldl (fun a f => firstSome a f.2.fps) a) acc

/-- The nested `media_info` scan for `duration`: first parseable value wins. -/
def obs_duration (acc : Option ℚ) (mi : List (String × List (String × FileInfo))) :
    Option ℚ :=
  mi.foldl (fun a p => p.2.foldl (fun a f => firstSome a f.2.duration) a) acc

/-- `needle` occurs as a contiguous substring (Python `in` on strings). -/
def listContains (needle : List Char) : List Char → Bool
  | [] => needle.isEmpty
  | c :: rest => needle.isPrefixOf (c :: rest) || listContains needle rest

/-- The ethogram built from the project document: entries with a non-empty
stripped name, mapping name to declared type. -/
def build_ethogram (entries : List (String × String)) : List (String × String) :=
  entries.foldl
    (fun acc e =>
      let name := strip e.1
      let btype := strip e.2
      if name ≠ "" then alistInsert name btype acc else acc)
    []

/-- One iteration of the per-observation event loop: point behaviours emit an
immediate zero-width bout; state behaviours toggle the open map. -/
def project_event_step (ethogram : List (String × String))
    (acc : List Bout × List ((String × String) × ℚ)) (ev : ℚ × String × String) :
    List Bout × List ((String × String) × ℚ) :=
  let t := ev.1
  let subject := strip ev.2.1
  let behaviour := strip ev.2.2
  let event_type := (alistFind behaviour ethogram).getD "State event"
  if listContains "point".toList (lowerStr event_type).toList then
    (acc.1 ++ [⟨subject, behaviour, t, t, true⟩], acc.2)
  else
    let key := (subject, behaviour)
    match alistFind key acc.2 with
    | some startv => (acc.1 ++ [⟨subject, behaviour, startv, t, false⟩], alistErase key acc.2)
    | none => (acc.1, alistInsert key t acc.2)

/-- Events of one observation: sort by timestamp, then pair with a fresh open
map.  Returns the emitted bouts and the keys still open at the end. -/
def obs_bouts (ethogram : List (String × String))
    (events : List (ℚ × String × String)) :
    List Bout × List ((String × String) × ℚ) :=
  (sortBy (·.1) events).foldl (project_event_step ethogram) ([], [])

/-- Accumulator of the observation loop of `_parse_boris_project`. -/
structure ProjAcc where
  bouts : List Bout
  media_filename : Option String
  fps : Option ℚ
  duration : Option ℚ
  warns : List ParseWarn
deriving DecidableEq, Repr

/-- The body of the observation loop of `_parse_boris_project` for one
observation. -/
def project_obs_step (ethogram : List (String × String)) (acc : ProjAcc)
    (ob : String × Observation) : ProjAcc :=
  let media := match obs_media_filename ob.2.media_file with
    | some m => some m
    | none => acc.media_filename
  let fps := obs_fps acc.fps ob.2.media_info
  let duration := obs_duration acc.duration ob.2.media_info
  let paired := obs_bouts ethogram ob.2.events
  { bouts := acc.bouts ++ paired.1
    media_filename := media
    fps := fps
    duration := duration
    warns := acc.warns ++
      paired.2.map (fun e => ParseWarn.unclosedStart e.1.1 e.1.2 e.2) }

/-- `parse._parse_boris_project`: abort when no observations exist, warn when
there are several (they are all parsed and combined), then fold the
observation loop, returning a single `ParsedAnnotations`. -/
def parse_boris_project (ethogram_entries : List (String × String))
    (observations : List (String × Observation)) :
    Except String (ParsedAnnotations × List ParseWarn) :=
  let ethogram := build_ethogram ethogram_entries
  if observations.isEmpty then
    Except.error "No observations found in .boris project file."
  else
    let initWarns :=
      if observations.length > 1 then
        [ParseWarn.multipleObservations observations.length]
      else []
    let acc := observations.foldl (project_obs_step ethogram)
      ⟨[], none, none, none, initWarns⟩
    Except.ok
      ({ bouts := acc.bouts
         media_filename := acc.media_filename
         fps := acc.fps
         duration := acc.duration
         source_format := "boris_project" },
       acc.warns)

/-! ## Shared lemmas -/

/-- Sanity check mirroring the repository's `test_filename_pattern`. -/
lemma build_output_path_test_pattern :
    build_output_path ⟨"ind1", "walking", 10, 15, false⟩
      ⟨"/data/recording.mp4", "recording.mp4", 120, 25⟩ "/out" 10 15
      = "/out/recording_walking_ind1_10.000-15.000.mp4" := by
  with_unfolding_all decide

/-- Sanity check mirroring the repository's `test_no_focal_subject`. -/
lemma build_output_path_test_no_focal :
    build_output_path ⟨"No focal subject", "REM", mkRat 3 2, 6, false⟩
      ⟨"/data/recording.mp4", "recording.mp4", 120, 25⟩ "/out" (mkRat 3 2) 6
      = "/out/recording_REM_no-focal-subject_1.500-6.000.mp4" := by
  with_unfolding_all decide

/-- Sanity check mirroring the spec's sanitisation example. -/
lemma sanitise_name_example : sanitise_name "ind 1 (A)" = "ind_1_A" := by decide

lemma alistFind_insert_self {α β : Type} [DecidableEq α] (k : α) (v : β) :
    ∀ l : List (α × β), alistFind k (alistInsert k v l) = some v := by
  intro l
  induction l with
  | nil => simp [alistFind, alistInsert]
  | cons e rest ih =>
    by_cases h : e.1 = k
    · simp [alistInsert, alistFind, h]
    · simpa [alistInsert, alistFind, h] using ih

lemma mem_uniqueFirst {α : Type} [DecidableEq α] (l : List α) (a : α) :
    a ∈ uniqueFirst l ↔ a ∈ l := by
  induction l with
  | nil => simp [uniqueFirst]
  | cons x xs ih =>
    simp only [uniqueFirst, List.mem_cons, List.mem_filter, ih]
    by_cases h : a = x <;> simp [h]

lemma uniqueFirst_eq_nil {α : Type} [DecidableEq α] (l : List α) :
    uniqueFirst l = [] ↔ l = [] := by
  cases l <;> simp [uniqueFirst]

lemma uniqueFirst_cons_eq_singleton {α : Type} [DecidableEq α] (v : α) (rest : List α) :
    uniqueFirst (v :: rest) = [v] ↔ ∀ x ∈ rest, x = v := by
  simp only [uniqueFirst, List.cons.injEq, true_and]
  rw [List.filter_eq_nil_iff]
  constructor
  · intro h x hx
    by_contra hne
    exact h x ((mem_uniqueFirst rest x).2 hx) (by simpa using hne)
  · intro h x hx
    simpa using h x ((mem_uniqueFirst rest x).1 hx)

/-! ## Claim C3 -/

/-- C3: for every Bout and padding values `pre` and `post`,
`with_padding pre post duration` returns a Bout whose start equals
`max 0 (start - pre)` and whose stop equals `min duration (stop + post)` when a
duration is supplied, else `stop + post`, with subject, behaviour and
`is_point` unchanged. -/
theorem with_padding_spec (b : Bout) (pre post : ℚ) :
    ((b.with_padding pre post none).start = max 0 (b.start - pre) ∧
      (b.with_padding pre post none).stop = b.stop + post) ∧
    (∀ d : ℚ,
      (b.with_padding pre post (some d)).start = max 0 (b.start - pre) ∧
      (b.with_padding pre post (some d)).stop = min d (b.stop + post)) ∧
    (∀ vd : Option ℚ,
      (b.with_padding pre post vd).subject = b.subject ∧
      (b.with_padding pre post vd).behaviour = b.behaviour ∧
      (b.with_padding pre post vd).is_point = b.is_point) := by
  refine ⟨⟨rfl, rfl⟩, fun d => ⟨rfl, rfl⟩, fun vd => ⟨rfl, rfl, rfl⟩⟩

/-! ## Claim C8 -/

/-- C8: when the padded-and-clamped duration exceeds a set `max_duration`, the
planner truncates only from the end — start unchanged, stop moved to
`start + max_duration` (so the duration equals `max_duration`) and the labels
and point flag untouched; a bout whose duration does not exceed
`max_duration` passes through unchanged, as does every bout when no
`max_duration` is set. -/
theorem truncate_to_max_duration_spec (b : Bout) (m : ℚ) :
    (b.duration > m →
      (truncate_to_max_duration b (some m)).start = b.start ∧
      (truncate_to_max_duration b (some m)).stop = b.start + m ∧
      (truncate_to_max_duration b (some m)).duration = m ∧
      (truncate_to_max_duration b (some m)).subject = b.subject ∧
      (truncate_to_max_duration b (some m)).behaviour = b.behaviour ∧
      (truncate_to_max_duration b (some m)).is_point = b.is_point) ∧
    (¬ b.duration > m → truncate_to_max_duration b (some m) = b) ∧
    truncate_to_max_duration b none = b := by
  refine ⟨fun h => ?_, fun h => ?_, rfl⟩
  · have h' : b.stop - b.start > m := by simpa [Bout.duration] using h
    simp [truncate_to_max_duration, Bout.duration, if_pos h']
  · have h' : ¬ b.stop - b.start > m := by simpa [Bout.duration] using h
    simp only [truncate_to_max_duration, Bout.duration, if_neg h']

/-- Witness for C8 at the spec's own example: a padded bout of duration 30
with `max_duration = 10` keeps its start and ends at `start + 10`. -/
theorem truncate_to_max_duration_spec_witness :
    (Bout.duration ⟨"ind1", "walking", 0, 30, false⟩ > 10) ∧
    (truncate_to_max_duration ⟨"ind1", "walking", 0, 30, false⟩ (some 10)).start = 0 ∧
    (truncate_to_max_duration ⟨"ind1", "walking", 0, 30, false⟩ (some 10)).duration = 10 := by
  have h : Bout.duration ⟨"ind1", "walking", 0, 30, false⟩ > 10 := by
    with_unfolding_all decide
  have hs := (truncate_to_max_duration_spec ⟨"ind1", "walking", 0, 30, false⟩ 10).1 h
  exact ⟨h, hs.1, hs.2.2.1⟩

/-! ## Claim C7 -/

/-- The grouping key of `_apply_max_clips`: the verbatim, case-sensitive
(behaviour, subject) pair. -/
def groupKey (b : Bout) : String × String := (b.behaviour, b.subject)

lemma apply_max_clips_aux_sublist (m : ℤ) :
    ∀ (bouts : List Bout) (counts : String × String → ℕ),
    (apply_max_clips_aux m counts bouts).Sublist bouts := by
  intro bouts
  induction bouts with
  | nil => intro counts; simp [apply_max_clips_aux]
  | cons b rest ih =>
    intro counts
    simp only [apply_max_clips_aux]
    split
    · exact (ih _).cons₂ b
    · exact (ih counts).cons b

lemma apply_max_clips_aux_filter (m : ℤ) (k : String × String) :
    ∀ (bouts : List Bout) (counts : String × String → ℕ),
    (apply_max_clips_aux m counts bouts).filter (fun b => decide (groupKey b = k)) =
      ((bouts.filter (fun b => decide (groupKey b = k))).take (m - counts k).toNat) := by
  intro bouts
  induction bouts with
  | nil => intro counts; simp [apply_max_clips_aux]
  | cons b rest ih =>
    intro counts
    have ih' := ih (fun kk => if kk = (b.behaviour, b.subject) then
      counts (b.behaviour, b.subject) + 1 else counts kk)
    by_cases hk : groupKey b = k
    · have hkeq : k = (b.behaviour, b.subject) := by rw [← hk]; rfl
      have hkt : decide (groupKey b = k) = true := by simp [hk]
      rw [if_pos hkeq] at ih'
      by_cases hc : ((counts (b.behaviour, b.subject) : ℤ) < m)
      · have hcnt : (m - (counts (b.behaviour, b.subject) : ℤ)).toNat
            = (m - ((counts (b.behaviour, b.subject) + 1 : ℕ) : ℤ)).toNat + 1 := by
          push_cast
          omega
        simp only [apply_max_clips_aux, if_pos hc]
        rw [List.filter_cons, List.filter_cons, if_pos hkt, if_pos hkt, ih', hkeq, hcnt,
          List.take_succ_cons]
      · have hcnt : (m - (counts (b.behaviour, b.subject) : ℤ)).toNat = 0 := by omega
        simp only [apply_max_clips_aux, if_neg hc]
        rw [List.filter_cons, if_pos hkt, ih counts, hkeq, hcnt, List.take_zero, List.take_zero]
    · have hkne : ¬ k = (b.behaviour, b.subject) := fun h => hk (by rw [h]; rfl)
      have hkf : ¬ decide (groupKey b = k) = true := by simp [hk]
      rw [if_neg hkne] at ih'
      by_cases hc : ((counts (b.behaviour, b.subject) : ℤ) < m)
      · simp only [apply_max_clips_aux, if_pos hc]
        rw [List.filter_cons, List.filter_cons, if_neg hkf, if_neg hkf]
        exact ih'
      · simp only [apply_max_clips_aux, if_neg hc]
        rw [List.filter_cons, if_neg hkf]
        exact ih counts

/-- C7: `_apply_max_clips` with `max_clips = N` keeps exactly the first `N`
bouts, in input order, of each case-sensitive (behaviour, subject) group — the
result is a sublist of the input whose restriction to any group equals the
first `N` entries of that group's restriction — and drops the rest without
emitting any warning or error; with `max_clips = None` all bouts are kept. -/
theorem apply_max_clips_spec (bouts : List Bout) :
    apply_max_clips bouts none = bouts ∧
    ∀ N : ℤ,
      (apply_max_clips bouts (some N)).Sublist bouts ∧
      ∀ k : String × String,
        (apply_max_clips bouts (some N)).filter (fun b => decide (groupKey b = k)) =
          (bouts.filter (fun b => decide (groupKey b = k))).take N.toNat := by
  refine ⟨rfl, fun N => ⟨apply_max_clips_aux_sublist N bouts _, fun k => ?_⟩⟩
  have h := apply_max_clips_aux_filter N k bouts (fun _ => 0)
  simpa [apply_max_clips] using h

/-! ## Claim C4 -/

/-- C4: in the paired-event tabular state machine, a START for an already-open
(subject, behaviour) key overwrites the stored start time, emits no Bout and
adds exactly one (non-fatal) warning; a STOP with no open matching key emits
no Bout, leaves the open map unchanged and adds exactly one warning; and the
end-of-rows pass turns every still-open key into one warning each, emitting no
Bout. -/
theorem tabular_edge_policies :
    (∀ (st : TabState) (row : TimedRow) (prev : ℚ),
      upperStr (strip row.status) = "START" →
      alistFind (strip row.subject, strip row.behaviour) st.open_states = some prev →
      (tabular_step st row).bouts = st.bouts ∧
      (tabular_step st row).warns = st.warns ++
        [ParseWarn.startOverwrite (strip row.subject) (strip row.behaviour) row.time prev] ∧
      alistFind (strip row.subject, strip row.behaviour)
        (tabular_step st row).open_states = some row.time) ∧
    (∀ (st : TabState) (row : TimedRow),
      upperStr (strip row.status) = "STOP" →
      alistFind (strip row.subject, strip row.behaviour) st.open_states = none →
      (tabular_step st row).bouts = st.bouts ∧
      (tabular_step st row).warns = st.warns ++
        [ParseWarn.unmatchedStop (strip row.subject) (strip row.behaviour) row.time] ∧
      (tabular_step st row).open_states = st.open_states) ∧
    (∀ st : TabState,
      (tabular_finalise st).bouts = st.bouts ∧
      (tabular_finalise st).warns.length = st.warns.length + st.open_states.length) := by
  refine ⟨fun st row prev h1 h2 => ?_, fun st row h1 h2 => ?_, fun st => ?_⟩
  · simp only [tabular_step]
    rw [if_pos h1, h2]
    exact ⟨rfl, rfl, alistFind_insert_self _ _ _⟩
  · simp only [tabular_step]
    rw [if_neg (by rw [h1]; decide), if_pos h1, h2]
    exact ⟨rfl, rfl, rfl⟩
  · simp [tabular_finalise]

/-- Witness for C4: a concrete double START, an unmatched STOP, and an
unclosed key at end of rows each behave as stated. -/
theorem tabular_edge_policies_witness :
    (tabular_step ⟨[], [(("s", "walk"), 1)], []⟩ ⟨3, "s", "walk", "START"⟩).bouts = [] ∧
    alistFind ("s", "walk")
      (tabular_step ⟨[], [(("s", "walk"), 1)], []⟩ ⟨3, "s", "walk", "START"⟩).open_states
      = some 3 ∧
    (tabular_step ⟨[], [], []⟩ ⟨4, "s", "walk", "STOP"⟩).bouts = [] ∧
    (tabular_step ⟨[], [], []⟩ ⟨4, "s", "walk", "STOP"⟩).warns =
      [ParseWarn.unmatchedStop "s" "walk" 4] ∧
    (tabular_finalise ⟨[], [(("s", "walk"), 1)], []⟩).bouts = [] ∧
    (tabular_finalise ⟨[], [(("s", "walk"), 1)], []⟩).warns.length = 1 := by
  have hstart := tabular_edge_policies.1 ⟨[], [(("s", "walk"), 1)], []⟩
    ⟨3, "s", "walk", "START"⟩ 1 (by decide) (by with_unfolding_all decide)
  have hstop := tabular_edge_policies.2.1 ⟨[], [], []⟩
    ⟨4, "s", "walk", "STOP"⟩ (by decide) (by with_unfolding_all decide)
  have hfin := tabular_edge_policies.2.2 ⟨[], [(("s", "walk"), 1)], []⟩
  refine ⟨hstart.1, ?_, hstop.1, ?_, hfin.1, ?_⟩
  · have := hstart.2.2
    simpa using this
  · have := hstop.2.1
    simpa using this
  · have := hfin.2
    simpa using this

/-! ## Claim C9 -/

/-- C9 counterexample: two rows carrying distinct FPS values 25 and 30.  The
claim says the first value would be used and a warning issued; the code
instead leaves the field absent and issues no warning at all. -/
theorem fps_multiple_values_counterexample :
    uniqueFirst ((([⟨none, "", "", "", none, some 25, none⟩,
        ⟨none, "", "", "", none, some 30, none⟩] : List TabRow).map (·.fps)).filterMap id)
      = [25, 30] ∧
    (parse_tabular_csv [⟨none, "", "", "", none, some 25, none⟩,
        ⟨none, "", "", "", none, some 30, none⟩]).1.fps = none ∧
    (parse_tabular_csv [⟨none, "", "", "", none, some 25, none⟩,
        ⟨none, "", "", "", none, some 30, none⟩]).2 = [] := by
  with_unfolding_all decide

/-- C9 amended: the media filename takes the first non-missing value, with a
warning exactly when more than one distinct value exists; frame rate and
duration are taken only when exactly one distinct non-missing value exists
and are otherwise left absent, silently; a field with no value is left absent
(never defaulted to zero). -/
theorem metadata_first_value_policy :
    (∀ (cells : List (Option String)) (v : String) (rest : List String),
      cells.filterMap id = v :: rest →
      (extract_media_filename cells).1 = some (pathName (strip v)) ∧
      ((extract_media_filename cells).2 = [] ↔ ∀ x ∈ rest, x = v)) ∧
    (∀ cells : List (Option String), cells.filterMap id = [] →
      extract_media_filename cells = (none, [])) ∧
    (∀ (cells : List (Option ℚ)) (v : ℚ) (rest : List ℚ),
      cells.filterMap id = v :: rest →
      ((∀ x ∈ rest, x = v) → extract_unique_numeric cells = some v) ∧
      ((¬ ∀ x ∈ rest, x = v) → extract_unique_numeric cells = none)) ∧
    (∀ cells : List (Option ℚ), cells.filterMap id = [] →
      extract_unique_numeric cells = none) := by
  have hstep : ∀ {α : Type} [inst : DecidableEq α] (v : α) (rest : List α),
      uniqueFirst (v :: rest) = v :: (uniqueFirst rest).filter (· ≠ v) :=
    fun v rest => rfl
  refine ⟨fun cells v rest h => ?_, fun cells h => ?_,
    fun cells v rest h => ⟨fun hall => ?_, fun hne => ?_⟩, fun cells h => ?_⟩
  · rcases hcase : (uniqueFirst rest).filter (· ≠ v) with _ | ⟨w, tail⟩
    · have hsingle : uniqueFirst (v :: rest) = [v] := by rw [hstep, hcase]
      have hall : ∀ x ∈ rest, x = v := (uniqueFirst_cons_eq_singleton v rest).1 hsingle
      have hval : extract_media_filename cells = (some (pathName (strip v)), []) := by
        unfold extract_media_filename
        rw [h, hsingle]
      rw [hval]
      exact ⟨rfl, iff_of_true rfl hall⟩
    · have hcons : uniqueFirst (v :: rest) = v :: w :: tail := by rw [hstep, hcase]
      have hnall : ¬ ∀ x ∈ rest, x = v := by
        intro hall
        have hs := (uniqueFirst_cons_eq_singleton v rest).2 hall
        rw [hcons] at hs
        simp at hs
      have hval : extract_media_filename cells =
          (some (pathName (strip v)), [ParseWarn.multipleMediaFiles]) := by
        unfold extract_media_filename
        rw [h, hcons]
      rw [hval]
      exact ⟨rfl, iff_of_false (by simp) hnall⟩
  · unfold extract_media_filename
    rw [h]
    rfl
  · have hsingle : uniqueFirst (v :: rest) = [v] :=
      (uniqueFirst_cons_eq_singleton v rest).2 hall
    unfold extract_unique_numeric
    rw [h, hsingle]
  · rcases hcase : (uniqueFirst rest).filter (· ≠ v) with _ | ⟨w, tail⟩
    · exact absurd ((uniqueFirst_cons_eq_singleton v rest).1
        (by rw [hstep, hcase])) hne
    · have hcons : uniqueFirst (v :: rest) = v :: w :: tail := by rw [hstep, hcase]
      unfold extract_unique_numeric
      rw [h, hcons]
  · unfold extract_unique_numeric
    rw [h]
    rfl

/-- Witness for C9 amended: one distinct FPS value across two rows is used;
two distinct media values produce the first plus a warning. -/
theorem metadata_first_value_policy_witness :
    extract_unique_numeric [some 25, none, some 25] = some 25 ∧
    (extract_media_filename [some "a.mp4", some "b.mp4"]).1 = some "a.mp4" ∧
    ¬ (extract_media_filename [some "a.mp4", some "b.mp4"]).2 = [] := by
  have h1 := (metadata_first_value_policy.2.2.1 [some 25, none, some 25] 25 [25]
    (by decide)).1 (by decide)
  have h2 := metadata_first_value_policy.1 [some "a.mp4", some "b.mp4"] "a.mp4" ["b.mp4"]
    (by decide)
  refine ⟨h1, ?_, ?_⟩
  · rw [h2.1]
    decide
  · intro hnil
    have := h2.2.1 hnil
    simp at this

/-! ## Claims C10 and C6 -/

/-- `String.intercalate.go` over a list ending in `x` appends `sep ++ x`. -/
lemma intercalate_go_append (sep x : String) :
    ∀ (xs : List String) (acc : String),
      String.intercalate.go acc sep (xs ++ [x]) =
        String.intercalate.go acc sep xs ++ sep ++ x := by
  intro xs
  induction xs with
  | nil => intro acc; rfl
  | cons y ys ih =>
    intro acc
    simpa [String.intercalate.go] using ih (acc ++ sep ++ y)

/-- `String.intercalate` over a non-empty list ending in `x`. -/
lemma intercalate_append_last (sep x y : String) (ys : List String) :
    String.intercalate sep (y :: ys ++ [x]) =
      String.intercalate sep (y :: ys) ++ sep ++ x := by
  show String.intercalate.go y sep (ys ++ [x]) = _
  rw [intercalate_go_append]
  rfl

/-- Cancellation of a common prefix and suffix of string concatenations. -/
lemma string_append_inj (p s1 s2 q : String)
    (h : p ++ (s1 ++ q) = p ++ (s2 ++ q)) : s1 = s2 := by
  apply String.ext
  have hd := congrArg String.data h
  simp only [String.data_append] at hd
  exact List.append_cancel_right (List.append_cancel_left hd)

/-- C10: `build_output_path` joins only the non-empty name components, so a
behaviour that sanitises to the empty string is omitted entirely rather than
appearing as an empty segment — any two bouts with the same subject whose
behaviours both sanitise to the empty string produce identical paths — and
concretely the distinct behaviour labels "." and "!" both sanitise to "" and
collide, with no empty segment in the produced filename. -/
theorem build_output_path_empty_component :
    (∀ (b1 b2 : Bout) (video : VideoInfo) (dir : String) (s t : ℚ),
      b1.subject = b2.subject →
      sanitise_name b1.behaviour = "" →
      sanitise_name b2.behaviour = "" →
      build_output_path b1 video dir s t = build_output_path b2 video dir s t) ∧
    (("." : String) ≠ "!" ∧
      sanitise_name "." = "" ∧ sanitise_name "!" = "" ∧
      build_output_path ⟨"ind1", ".", 0, 1, false⟩
        ⟨"/data/recording.mp4", "recording.mp4", 120, 25⟩ "/out" 0 1 =
      build_output_path ⟨"ind1", "!", 0, 1, false⟩
        ⟨"/data/recording.mp4", "recording.mp4", 120, 25⟩ "/out" 0 1 ∧
      build_output_path ⟨"ind1", ".", 0, 1, false⟩
        ⟨"/data/recording.mp4", "recording.mp4", 120, 25⟩ "/out" 0 1 =
        "/out/recording_ind1_0.000-1.000.mp4") := by
  constructor
  · intro b1 b2 video dir s t hsubj hb1 hb2
    simp only [build_output_path, hb1, hb2, hsubj]
  · refine ⟨by decide, by decide, by decide, ?_, ?_⟩ <;> with_unfolding_all decide

/-- Witness for C10 at the concrete colliding pair. -/
theorem build_output_path_empty_component_witness :
    build_output_path ⟨"x", ".", 2, 3, false⟩
      ⟨"/data/v.mp4", "v.mp4", 10, 25⟩ "/o" 2 3 =
    build_output_path ⟨"x", "!", 2, 3, false⟩
      ⟨"/data/v.mp4", "v.mp4", 10, 25⟩ "/o" 2 3 :=
  build_output_path_empty_component.1 ⟨"x", ".", 2, 3, false⟩ ⟨"x", "!", 2, 3, false⟩
    ⟨"/data/v.mp4", "v.mp4", 10, 25⟩ "/o" 2 3 rfl (by decide) (by decide)

/-- Cancellation with a two-piece prefix. -/
lemma string_append_inj2 (p1 p2 s1 s2 q : String)
    (h : p1 ++ ((p2 ++ s1) ++ q) = p1 ++ ((p2 ++ s2) ++ q)) : s1 = s2 := by
  apply String.ext
  have hd := congrArg String.data h
  simp only [String.data_append, List.append_assoc] at hd
  exact List.append_cancel_right (List.append_cancel_left (List.append_cancel_left hd))

lemma filter_four (a b c i : String) (hi : i ≠ "") :
    ([a, b, c, i].filter (· ≠ "")) = [a, b, c].filter (· ≠ "") ++ [i] := by
  have h4 : [a, b, c, i] = [a, b, c] ++ [i] := rfl
  rw [h4, List.filter_append]
  simp [hi]

lemma interval_component_ne_empty (s t : ℚ) : format3 s ++ "-" ++ format3 t ≠ "" := by
  intro h
  have hl := congrArg String.length h
  simp only [String.length_append] at hl
  have h1 : ("-" : String).length = 1 := rfl
  have h0 : ("" : String).length = 0 := rfl
  omega

/-- C6 counterexample: the original intervals (0.0001, 1) and (0.0002, 1)
differ, yet both format to "0.000-1.000" at millisecond precision and produce
the same output path — identifiers do not vary with every change of the
original interval. -/
theorem output_identifier_collision :
    (mkRat 1 10000 ≠ mkRat 2 10000) ∧
    build_output_path ⟨"ind1", "walking", 0, 1, false⟩
      ⟨"/data/recording.mp4", "recording.mp4", 120, 25⟩ "/out" (mkRat 1 10000) 1 =
    build_output_path ⟨"ind1", "walking", 0, 1, false⟩
      ⟨"/data/recording.mp4", "recording.mp4", 120, 25⟩ "/out" (mkRat 2 10000) 1 := by
  with_unfolding_all decide

/-- C6 amended: the output identifier depends only on the video filename stem,
the sanitised behaviour and subject labels and the original unpadded times at
millisecond precision — identical for any two paddings of the same bout — and
two runs over the same bout and video whose original intervals differ in their
millisecond-precision formatting produce different identifiers (intervals
equal at millisecond precision may collide). -/
theorem output_identifier_determinants :
    (∀ (b : Bout) (video : VideoInfo) (dir : String)
        (pre1 post1 pre2 post2 : ℚ) (d1 d2 : Option ℚ) (s t : ℚ),
      build_output_path (b.with_padding pre1 post1 d1) video dir s t =
        build_output_path (b.with_padding pre2 post2 d2) video dir s t) ∧
    (∀ (b : Bout) (video : VideoInfo) (dir : String) (s1 t1 s2 t2 : ℚ),
      format3 s1 ++ "-" ++ format3 t1 ≠ format3 s2 ++ "-" ++ format3 t2 →
      build_output_path b video dir s1 t1 ≠ build_output_path b video dir s2 t2) := by
  constructor
  · intro b video dir pre1 post1 pre2 post2 d1 d2 s t
    rfl
  · intro b video dir s1 t1 s2 t2 hne heq
    apply hne
    simp only [build_output_path] at heq
    rw [filter_four _ _ _ _ (interval_component_ne_empty s1 t1),
      filter_four _ _ _ _ (interval_component_ne_empty s2 t2)] at heq
    rcases hP : [pathStem video.filename, sanitise_name b.behaviour,
        if noFocalSubjectLabels.contains (lowerStr (strip b.subject)) then "no-focal-subject"
        else sanitise_name b.subject].filter (· ≠ "") with _ | ⟨y, ys⟩
    · rw [hP] at heq
      simp only [List.nil_append] at heq
      exact string_append_inj (dir ++ "/") _ _ ".mp4" heq
    · rw [hP, intercalate_append_last, intercalate_append_last] at heq
      exact string_append_inj2 (dir ++ "/") _ _ _ ".mp4" heq

/-- Witness for C6 amended: intervals formatting to "10.000-15.000" and
"11.000-15.000" give different clip paths for the same bout and video. -/
theorem output_identifier_determinants_witness :
    build_output_path ⟨"ind1", "walking", 10, 15, false⟩
      ⟨"/data/recording.mp4", "recording.mp4", 120, 25⟩ "/out" 10 15 ≠
    build_output_path ⟨"ind1", "walking", 10, 15, false⟩
      ⟨"/data/recording.mp4", "recording.mp4", 120, 25⟩ "/out" 11 15 :=
  output_identifier_determinants.2 ⟨"ind1", "walking", 10, 15, false⟩
    ⟨"/data/recording.mp4", "recording.mp4", 120, 25⟩ "/out" 10 15 11 15
    (by with_unfolding_all decide)

/-! ## Claim C1 -/

/-- The row-to-bout translation of one aggregated row: rows with both values
parsed produce a bout with exactly those values, others produce nothing. -/
def aggRowBout (r : AggRow) : Option Bout :=
  match r.start, r.stop with
  | some sv, some tv =>
    some ⟨strip r.subject, strip r.behaviour, sv, tv, decide (sv = tv)⟩
  | _, _ => none

/-- The aggregated parser copies row values verbatim: its bout list is exactly
the per-row translation of the input rows, in order — no row is clamped,
reordered or filtered beyond dropping rows with a missing value. -/
lemma parse_aggregated_bouts_eq (rows : List AggRow) :
    (parse_aggregated_csv rows).1.bouts = rows.filterMap aggRowBout := by
  have hgen : ∀ (rows : List AggRow) (acc : List Bout × List ParseWarn),
      (rows.foldl aggregated_step acc).1 = acc.1 ++ rows.filterMap aggRowBout := by
    intro rows
    induction rows with
    | nil => intro acc; simp
    | cons r rest ih =>
      intro acc
      simp only [List.foldl_cons, List.filterMap_cons]
      rcases hs : r.start with _ | sv <;> rcases ht : r.stop with _ | tv <;>
        simp only [aggregated_step, aggRowBout, hs, ht] <;>
        rw [ih] <;> simp
  exact hgen rows ([], [])

/-- C1 counterexample, refuting both conjuncts of the claim.  The zero-width
point bout (5, 5) satisfies `stop ≥ start`, yet `with_padding 0 0 (some 3)`
clamps the stop to the video duration 3 while the start stays at 5, returning
a Bout with `stop < start` (and an `is_point` bout whose start and stop now
differ).  And the aggregated-CSV parser, given a row with start 7 and stop 3,
constructs the Bout (7, 3) verbatim, whose stop is below its start. -/
theorem bout_invariant_counterexample :
    (Bout.stop ⟨"s", "walk", 5, 5, true⟩ ≥ Bout.start ⟨"s", "walk", 5, 5, true⟩) ∧
    (Bout.with_padding ⟨"s", "walk", 5, 5, true⟩ 0 0 (some 3)).stop <
      (Bout.with_padding ⟨"s", "walk", 5, 5, true⟩ 0 0 (some 3)).start ∧
    (Bout.with_padding ⟨"s", "walk", 5, 5, true⟩ 0 0 (some 3)).is_point = true ∧
    (parse_aggregated_csv
        [⟨"s", "walk", some 7, some 3, none, none, none⟩]).1.bouts =
      [⟨"s", "walk", 7, 3, false⟩] ∧
    Bout.stop ⟨"s", "walk", 7, 3, false⟩ < Bout.start ⟨"s", "walk", 7, 3, false⟩ := by
  with_unfolding_all decide

/-- C1 amended: `with_padding` preserves `stop ≥ start` provided the paddings
are non-negative, the original start is non-negative and the clamping
duration (when supplied) is at least the padded start; and the aggregated-CSV
parser emits bouts with `stop ≥ start` exactly when every parsed row satisfies
`stop ≥ start` — the parser copies row values verbatim, so a violating row
yields a violating bout and conversely. -/
theorem bout_invariant_amended :
    (∀ (b : Bout) (pre post : ℚ) (d : Option ℚ),
      0 ≤ b.start → b.start ≤ b.stop → 0 ≤ pre → 0 ≤ post →
      (∀ x ∈ d, max 0 (b.start - pre) ≤ x) →
      (b.with_padding pre post d).start ≤ (b.with_padding pre post d).stop) ∧
    (∀ rows : List AggRow,
      (∀ b ∈ (parse_aggregated_csv rows).1.bouts, b.start ≤ b.stop) ↔
      (∀ r ∈ rows, ∀ sv ∈ r.start, ∀ tv ∈ r.stop, sv ≤ tv)) := by
  constructor
  · intro b pre post d h0 hss hpre hpost hd
    have hstart : (b.with_padding pre post d).start = max 0 (b.start - pre) := by
      cases d <;> rfl
    have hle : max 0 (b.start - pre) ≤ b.stop + post := by
      apply max_le
      · linarith
      · linarith
    cases d with
    | none =>
      rw [hstart]
      simpa [Bout.with_padding] using hle
    | some x =>
      rw [hstart]
      have hx : max 0 (b.start - pre) ≤ x := hd x (by simp)
      simpa [Bout.with_padding] using le_min hx hle
  · intro rows
    rw [parse_aggregated_bouts_eq]
    constructor
    · intro hbouts r hr sv hsv tv htv
      have hmem : (⟨strip r.subject, strip r.behaviour, sv, tv, decide (sv = tv)⟩ : Bout)
          ∈ rows.filterMap aggRowBout := by
        apply List.mem_filterMap.2
        refine ⟨r, hr, ?_⟩
        simp only [aggRowBout]
        rw [Option.mem_def.1 hsv, Option.mem_def.1 htv]
      exact hbouts _ hmem
    · intro hrows b hb
      obtain ⟨r, hr, hrb⟩ := List.mem_filterMap.1 hb
      rcases hs : r.start with _ | sv <;> rcases ht : r.stop with _ | tv <;>
        simp only [aggRowBout, hs, ht] at hrb <;> cases hrb
      exact hrows r hr sv (by rw [hs]; rfl) tv (by rw [ht]; rfl)

/-- Witness for C1 amended: a concrete padded state bout and a one-row
aggregated parse both satisfy `stop ≥ start` under the stated conditions. -/
theorem bout_invariant_amended_witness :
    (Bout.with_padding ⟨"s", "walk", 1, 2, false⟩ 1 1 (some 10)).start ≤
      (Bout.with_padding ⟨"s", "walk", 1, 2, false⟩ 1 1 (some 10)).stop ∧
    ∀ b ∈ (parse_aggregated_csv
        [⟨"s", "walk", some 1, some 2, none, none, none⟩]).1.bouts,
      b.start ≤ b.stop := by
  constructor
  · exact bout_invariant_amended.1 ⟨"s", "walk", 1, 2, false⟩ 1 1 (some 10)
      (by with_unfolding_all decide) (by with_unfolding_all decide)
      (by with_unfolding_all decide) (by with_unfolding_all decide)
      (by intro x hx; simp at hx; rw [← hx]; with_unfolding_all decide)
  · exact (bout_invariant_amended.2
      [⟨"s", "walk", some 1, some 2, none, none, none⟩]).mpr
      (by intro r hr sv hsv tv htv
          simp at hr
          rw [hr] at hsv htv
          simp at hsv htv
          rw [← hsv, ← htv]
          with_unfolding_all decide)

/-! ## Claim C5 -/

lemma check_media_filename_force_ok (a : ParsedAnnotations) (v : VideoInfo) :
    ∃ w, check_media_filename a v true = Except.ok w := by
  unfold check_media_filename hardCondition
  cases a.media_filename with
  | none => exact ⟨_, rfl⟩
  | some m => by_cases h : m ≠ v.filename <;> simp [h]

lemma check_bout_bounds_force_ok (a : ParsedAnnotations) (v : VideoInfo) :
    ∃ w, check_bout_bounds a v true = Except.ok w := by
  unfold check_bout_bounds hardCondition
  by_cases h : (a.bouts.filter (fun b => b.stop > v.duration + durationTolerance)).isEmpty <;>
    simp [h]

/-- C5 counterexample: with `force = false` a filename mismatch aborts at the
first check — only the filename check ran, so the fps, duration and bounds
checks were skipped, contradicting "runs all four checks unconditionally". -/
theorem validate_short_circuit_counterexample :
    validate { bouts := [], media_filename := some "a.mp4" }
        ⟨"/v/b.mp4", "b.mp4", 60, 25⟩ false =
      Except.error ([CheckTag.media], VFatal.filenameMismatch "a.mp4" "b.mp4") ∧
    ([CheckTag.media] : List CheckTag) ≠
      [CheckTag.media, CheckTag.fps, CheckTag.duration, CheckTag.bounds] := by
  with_unfolding_all decide

/-- C5 amended: with the force flag set, `validate` always runs all four
checks in source order, demoting every hard condition to a warning; whenever
`validate` completes without aborting all four checks ran in order; and an
abort happens only at a hard check (the filename check, skipping the other
three, or the bounds check after all four ran) — soft checks never abort or
suppress later checks. -/
theorem validate_check_order :
    (∀ (a : ParsedAnnotations) (v : VideoInfo),
      ∃ w, validate a v true = Except.ok
        ([CheckTag.media, CheckTag.fps, CheckTag.duration, CheckTag.bounds], w)) ∧
    (∀ (a : ParsedAnnotations) (v : VideoInfo) (force : Bool)
        (t : List CheckTag) (w : List VWarn),
      validate a v force = Except.ok (t, w) →
      t = [CheckTag.media, CheckTag.fps, CheckTag.duration, CheckTag.bounds]) ∧
    (∀ (a : ParsedAnnotations) (v : VideoInfo) (force : Bool)
        (t : List CheckTag) (f : VFatal),
      validate a v force = Except.error (t, f) →
      t = [CheckTag.media] ∨
      t = [CheckTag.media, CheckTag.fps, CheckTag.duration, CheckTag.bounds]) := by
  refine ⟨fun a v => ?_, fun a v force t w h => ?_, fun a v force t f h => ?_⟩
  · obtain ⟨w1, h1⟩ := check_media_filename_force_ok a v
    obtain ⟨w4, h4⟩ := check_bout_bounds_force_ok a v
    refine ⟨w1 ++ check_fps a v ++ check_duration a v ++ w4, ?_⟩
    unfold validate
    rw [h1, h4]
  · unfold validate at h
    split at h
    · exact absurd h (by simp)
    · split at h
      · exact absurd h (by simp)
      · simp only [Except.ok.injEq, Prod.mk.injEq] at h
        exact h.1.symm
  · unfold validate at h
    split at h
    · simp only [Except.error.injEq, Prod.mk.injEq] at h
      exact Or.inl h.1.symm
    · split at h
      · simp only [Except.error.injEq, Prod.mk.injEq] at h
        exact Or.inr h.1.symm
      · exact absurd h (by simp)

/-- Witness for C5 amended: a run that completes (clean annotations, matching
video) ran all four checks in order. -/
theorem validate_check_order_witness :
    validate { bouts := [] } ⟨"/v/b.mp4", "b.mp4", 60, 25⟩ false =
      Except.ok ([CheckTag.media, CheckTag.fps, CheckTag.duration, CheckTag.bounds],
        [VWarn.noMediaFilename]) ∧
    ([CheckTag.media, CheckTag.fps, CheckTag.duration, CheckTag.bounds] : List CheckTag) =
      [CheckTag.media, CheckTag.fps, CheckTag.duration, CheckTag.bounds] := by
  have h : validate { bouts := [] } ⟨"/v/b.mp4", "b.mp4", 60, 25⟩ false =
      Except.ok ([CheckTag.media, CheckTag.fps, CheckTag.duration, CheckTag.bounds],
        [VWarn.noMediaFilename]) := by
    with_unfolding_all decide
  exact ⟨h, validate_check_order.2.1 { bouts := [] } ⟨"/v/b.mp4", "b.mp4", 60, 25⟩
    false _ _ h⟩

/-! ## Claim C2 -/

lemma project_foldl_bouts (eth : List (String × String))
    (obss : List (String × Observation)) :
    ∀ acc : ProjAcc,
      (obss.foldl (project_obs_step eth) acc).bouts =
        acc.bouts ++ (obss.map (fun ob => (obs_bouts eth ob.2.events).1)).flatten := by
  induction obss with
  | nil => intro acc; simp
  | cons ob rest ih =>
    intro acc
    simp only [List.foldl_cons, List.map_cons, List.flatten]
    rw [ih]
    simp [project_obs_step, List.append_assoc]

/-- C2 counterexample: a project with two observations, each holding one point
event, parses to a single `ParsedAnnotations` that combines the bouts of both
observations and carries no observation identifier — observations are merged,
not returned as independent tagged sets. -/
theorem project_merges_observations_counterexample :
    parse_boris_project [("blink", "Point event")]
        [("obs1", ⟨MediaFileField.byPlayer [], [], [(1, "s1", "blink")]⟩),
         ("obs2", ⟨MediaFileField.byPlayer [], [], [(2, "s2", "blink")]⟩)] =
      Except.ok
        ({ bouts := [⟨"s1", "blink", 1, 1, true⟩, ⟨"s2", "blink", 2, 2, true⟩]
           obs_id := none
           media_filename := none
           media_path := none
           fps := none
           duration := none
           source_format := "boris_project" },
         [ParseWarn.multipleObservations 2]) := by
  with_unfolding_all decide

/-- C2 amended: for a non-empty observation map the hierarchical parser
returns a single `ParsedAnnotations` whose bout list is the concatenation, in
document order, of the bouts paired independently per observation (each with a
fresh open-state map), and whose observation identifier is left unset. -/
theorem project_observations_merged (eth : List (String × String))
    (obss : List (String × Observation)) (h : obss ≠ []) :
    ∃ pa warns, parse_boris_project eth obss = Except.ok (pa, warns) ∧
      pa.obs_id = none ∧
      pa.bouts =
        (obss.map (fun ob => (obs_bouts (build_ethogram eth) ob.2.events).1)).flatten := by
  unfold parse_boris_project
  rw [if_neg (by simpa using h)]
  refine ⟨_, _, rfl, rfl, ?_⟩
  rw [project_foldl_bouts]
  simp

/-- Witness for C2 amended at a concrete one-observation project. -/
theorem project_observations_merged_witness :
    ∃ pa warns,
      parse_boris_project [("blink", "Point event")]
          [("obs1", ⟨MediaFileField.byPlayer [], [], [(1, "s1", "blink")]⟩)] =
        Except.ok (pa, warns) ∧
      pa.obs_id = none ∧
      pa.bouts =
        (([("obs1", (⟨MediaFileField.byPlayer [], [], [(1, "s1", "blink")]⟩ :
            Observation))]).map
          (fun ob => (obs_bouts (build_ethogram [("blink", "Point event")])
            ob.2.events).1)).flatten :=
  project_observations_merged [("blink", "Point event")]
    [("obs1", ⟨MediaFileField.byPlayer [], [], [(1, "s1", "blink")]⟩)] (by simp)

end BorisClip
